import Mathlib

/-
Verification of the anagram-hunt word-generation and session-scoring engine.

The development shallowly embeds the TypeScript source:
  - the word generator `findAndScoreWords` (utils/wordFinder),
  - the progress store `updateLevelProgress` (utils/storage),
  - the in-session state machine of Game.tsx (`handleSubmit`,
    `handleKeyPress`, delete, and the countdown tick).

Strings are lists of characters; JS number arithmetic on scores is modelled
exactly over ℤ and ℚ, with `Math.round` as `jsRound` (round half toward
positive infinity, proved equal to Mathlib `round`).
-/

attribute [local semireducible] Rat.add Rat.mul Rat.sub Rat.inv

namespace AnagramHunt

/-- Characters of a JS string, one list entry per code point. -/
abbrev Str := List Char

/-- The case-mapping table of the alphabet this program manipulates:
ASCII letters plus the German characters of the letter-value tables.
The eszett has no single-character uppercase form and is not mapped
(the source only upcases the first letter of lowercase English
dictionary words). -/
def caseTable : List (Char × Char) :=
  [('a', 'A'), ('b', 'B'), ('c', 'C'), ('d', 'D'), ('e', 'E'), ('f', 'F'),
   ('g', 'G'), ('h', 'H'), ('i', 'I'), ('j', 'J'), ('k', 'K'), ('l', 'L'),
   ('m', 'M'), ('n', 'N'), ('o', 'O'), ('p', 'P'), ('q', 'Q'), ('r', 'R'),
   ('s', 'S'), ('t', 'T'), ('u', 'U'), ('v', 'V'), ('w', 'W'), ('x', 'X'),
   ('y', 'Y'), ('z', 'Z'), ('ä', 'Ä'), ('ö', 'Ö'), ('ü', 'Ü')]

/-- JS `toUpperCase` on a single character, restricted to `caseTable`;
characters outside the table are left unchanged. -/
def upperChar (c : Char) : Char :=
  match caseTable.find? (fun p => decide (p.1 = c)) with
  | some p => p.2
  | none => c

/-- JS `toLowerCase` on a single character, restricted to `caseTable`;
characters outside the table are left unchanged. -/
def lowerChar (c : Char) : Char :=
  match caseTable.find? (fun p => decide (p.2 = c)) with
  | some p => p.1
  | none => c

/-- JS `String.prototype.toLowerCase`. -/
def toLowerStr (s : Str) : Str := s.map lowerChar

/-- JS `w.charAt(0).toUpperCase() + w.slice(1)`: the display-casing transform
applied to English words at generation time. -/
def capitalize (w : Str) : Str :=
  match w with
  | [] => []
  | c :: rest => upperChar c :: rest

/-- The two supported dictionary languages. -/
inductive Language where
  | en : Language
  | de : Language
deriving DecidableEq

/-- The fixed English letter-value table (`letterValues.en`). -/
def letterValuesEn : List (Char × Nat) :=
  [('a', 1), ('b', 3), ('c', 3), ('d', 2), ('e', 1), ('f', 4), ('g', 2),
   ('h', 4), ('i', 1), ('j', 8), ('k', 5), ('l', 1), ('m', 3), ('n', 1),
   ('o', 1), ('p', 3), ('q', 10), ('r', 1), ('s', 1), ('t', 1), ('u', 1),
   ('v', 4), ('w', 4), ('x', 8), ('y', 4), ('z', 10)]

/-- The fixed German letter-value table (`letterValues.de`). -/
def letterValuesDe : List (Char × Nat) :=
  [('a', 1), ('b', 3), ('c', 4), ('d', 1), ('e', 1), ('f', 4), ('g', 2),
   ('h', 2), ('i', 1), ('j', 6), ('k', 4), ('l', 2), ('m', 3), ('n', 1),
   ('o', 2), ('p', 4), ('q', 10), ('r', 1), ('s', 1), ('t', 1), ('u', 1),
   ('v', 6), ('w', 3), ('x', 8), ('y', 10), ('z', 3), ('ä', 6), ('ö', 8),
   ('ü', 6), ('ß', 3)]

/-- Per-language letter value, with `|| 0` for unknown characters. -/
def letterValue (lang : Language) (c : Char) : Nat :=
  let table := match lang with
    | Language.en => letterValuesEn
    | Language.de => letterValuesDe
  ((table.find? (fun p => decide (p.1 = c))).map Prod.snd).getD 0

/-- The uncommonness of a word: the sum of the letter values of its
lowercased characters (`calculateUncommonness`). -/
def calculateUncommonness (w : Str) (lang : Language) : Nat :=
  ((toLowerStr w).map (letterValue lang)).sum

/-- The letter-multiset containment test of the generator loop: for every
character of the lowercased candidate, its occurrence count must not exceed
the count in the lowercased seed (a missing seed entry makes the `charMap`
lookup falsy and fails the test, exactly as a zero count does). -/
def canBeFormed (w seedWord : Str) : Bool :=
  (toLowerStr w).all
    (fun c => decide ((toLowerStr w).count c ≤ (toLowerStr seedWord).count c))

/-- The per-candidate filter of `findAndScoreWords`: the loop `continue`s on
short words, words longer than the seed, and words strictly equal to the
lowercased seed; survivors must also pass the letter-multiset test. -/
def keepWord (seedWord : Str) (w : Str) : Bool :=
  !(decide (w.length < 3) || decide (seedWord.length < w.length)
      || decide (w = toLowerStr seedWord))
    && canBeFormed w seedWord

/-- The `foundWords` list accumulated by the dictionary loop. -/
def survivors (seedWord : Str) (dictionary : List Str) : List Str :=
  dictionary.filter (keepWord seedWord)

/-- A surviving word together with its two raw scoring axes
(the `wordsWithScores` intermediate records). -/
structure ScoredWord where
  word : Str
  uncommonness : Nat
  length : Nat
deriving DecidableEq

/-- A scored output entry of the generator. -/
structure WordResult where
  word : Str
  estimated_uncommonness : ℤ
  combined_score : ℤ
deriving DecidableEq

/-- JS `Math.round`: round half toward positive infinity,
written so that it evaluates by kernel reduction. -/
def jsRound (q : ℚ) : ℤ := (2 * q.num + q.den) / (2 * (q.den : ℤ))

/-- The display-casing of an output word: English words get their first
letter upcased at generation time, German words keep dictionary casing. -/
def displayWord (lang : Language) (w : Str) : Str :=
  if lang = Language.en then capitalize w else w

/-- The per-word scoring step of the batch pass: min-max normalize both axes
(full credit on a degenerate axis), blend, scale into `[10, 1000]`, bucket
uncommonness into `[1, 5]`, and apply English display casing. -/
def scoreWord (lang : Language) (minLength maxLength minUnc maxUnc : Nat)
    (item : ScoredWord) : WordResult :=
  let lengthRange : ℚ := (maxLength : ℚ) - (minLength : ℚ)
  let uncommonnessRange : ℚ := (maxUnc : ℚ) - (minUnc : ℚ)
  let normalizedLength : ℚ :=
    if 0 < lengthRange then ((item.length : ℚ) - (minLength : ℚ)) / lengthRange else 1
  let normalizedUncommonness : ℚ :=
    if 0 < uncommonnessRange then ((item.uncommonness : ℚ) - (minUnc : ℚ)) / uncommonnessRange else 1
  let combinedNormalizedScore : ℚ := (normalizedLength + normalizedUncommonness) / 2
  { word := displayWord lang item.word
    estimated_uncommonness := jsRound (1 + normalizedUncommonness * 4)
    combined_score := jsRound (10 + combinedNormalizedScore * 990) }

/-- JS `Math.min(...)` over a list (the surviving list is never empty). -/
def listMinD : List Nat → Nat
  | [] => 0
  | x :: xs => xs.foldl Nat.min x

/-- JS `Math.max(...)` over a list (the surviving list is never empty). -/
def listMaxD : List Nat → Nat
  | [] => 0
  | x :: xs => xs.foldl Nat.max x

/-- Stable insertion of an entry into a list sorted descending by
`combined_score`; an entry moves ahead only of strictly smaller scores,
matching the comparator `(a, b) => b.combined_score - a.combined_score`
of a stable `Array.prototype.sort`. -/
def insertDesc (r : WordResult) : List WordResult → List WordResult
  | [] => [r]
  | x :: xs => if x.combined_score < r.combined_score then r :: x :: xs else x :: insertDesc r xs

/-- Stable sort descending by `combined_score`. -/
def sortByScoreDesc (rs : List WordResult) : List WordResult :=
  rs.foldr insertDesc []

/-- The `wordsWithScores` batch of a surviving list. -/
def batchItems (lang : Language) (found : List Str) : List ScoredWord :=
  found.map (fun w => ⟨w, calculateUncommonness w lang, w.length⟩)

def batchMinLength (lang : Language) (found : List Str) : Nat :=
  listMinD ((batchItems lang found).map ScoredWord.length)

def batchMaxLength (lang : Language) (found : List Str) : Nat :=
  listMaxD ((batchItems lang found).map ScoredWord.length)

def batchMinUnc (lang : Language) (found : List Str) : Nat :=
  listMinD ((batchItems lang found).map ScoredWord.uncommonness)

def batchMaxUnc (lang : Language) (found : List Str) : Nat :=
  listMaxD ((batchItems lang found).map ScoredWord.uncommonness)

/-- The two-pass batch scoring of the surviving candidate set, followed by
the descending stable sort on `combined_score`. -/
def scoreBatch (lang : Language) (found : List Str) : List WordResult :=
  sortByScoreDesc
    ((batchItems lang found).map
      (scoreWord lang (batchMinLength lang found) (batchMaxLength lang found)
        (batchMinUnc lang found) (batchMaxUnc lang found)))

/-- The word generator `findAndScoreWords(seedWord, language)` with the
dictionary made an explicit argument: an empty seed short-circuits to `[]`
(the `!seedWord` guard), the dictionary is filtered by the per-candidate
constraints, and a non-empty surviving set is batch-scored. -/
def findAndScoreWords (seedWord : Str) (lang : Language) (dictionary : List Str) :
    List WordResult :=
  if seedWord = [] then []
  else if survivors seedWord dictionary = [] then []
  else scoreBatch lang (survivors seedWord dictionary)

/-- JS `x || d` on an optional number field: both `undefined` and `0` are
falsy and fall through to the default. -/
def numOr (x : Option ℤ) (d : ℤ) : ℤ :=
  match x with
  | none => d
  | some v => if v = 0 then d else v

/-- JS `x || d` on an optional string field: both `undefined` and the empty
string are falsy and fall through to the default. -/
def strOr (x : Option Str) (d : Str) : Str :=
  match x with
  | none => d
  | some v => if v = [] then d else v

/-- One recorded completion of a level (`completedLevels[level]`). -/
structure LevelData where
  score : ℤ
  wordsFound : ℤ
  totalWords : ℤ
  completedAt : Str
deriving DecidableEq

/-- The persisted progress ledger (`GameProgress`); the JS object keyed by
level number is modelled as a function from level to optional record. -/
structure GameProgress where
  currentLevel : ℤ
  language : Language
  completedLevels : ℤ → Option LevelData
  totalScore : ℤ
  lastPlayed : Str

/-- The progress-merge operation `updateLevelProgress(level, score,
wordsFound, totalWords, language)`: the previously loaded progress and the
current timestamp are explicit arguments; the new score replaces the stored
entry only when strictly greater, and the accumulated total is adjusted by
the difference exactly in that case. -/
def updateLevelProgress (existing : Option GameProgress) (now : Str) (level : ℤ)
    (score : ℤ) (wordsFound : ℤ) (totalWords : ℤ) (language : Language) :
    GameProgress :=
  let existingLevelData : Option LevelData :=
    match existing with
    | none => none
    | some p => p.completedLevels level
  let existingScore : ℤ := numOr (existingLevelData.map LevelData.score) 0
  let shouldUpdateScore : Bool := decide (existingScore < score)
  let totalScoreAdjustment : ℤ := if shouldUpdateScore then score - existingScore else 0
  { currentLevel := numOr (existing.map GameProgress.currentLevel) 1
    language := language
    completedLevels := fun l =>
      if l = level then
        some { score := if shouldUpdateScore then score else existingScore
               wordsFound := if shouldUpdateScore then wordsFound
                 else numOr (existingLevelData.map LevelData.wordsFound) 0
               totalWords := if shouldUpdateScore then totalWords
                 else numOr (existingLevelData.map LevelData.totalWords) 0
               completedAt := if shouldUpdateScore then now
                 else strOr (existingLevelData.map LevelData.completedAt) now }
      else
        match existing with
        | none => none
        | some p => p.completedLevels l
    totalScore := numOr (existing.map GameProgress.totalScore) 0 + totalScoreAdjustment
    lastPlayed := now }

/-- The two bonus kinds of the session engine. -/
inductive BonusType where
  | streak : BonusType
  | straight : BonusType
deriving DecidableEq

/-- The bonus record attached to a found word; `type` is `null` when no
bonus applies. -/
structure Bonus where
  type : Option BonusType
  amount : ℤ
  count : ℤ
deriving DecidableEq

/-- One found word of the running session, created on a successful
submission. -/
structure FoundWordInfo where
  word : Str
  score : ℤ
  bonus : Bonus
deriving DecidableEq

/-- The mutable session state of one level attempt. -/
structure SessionState where
  currentInput : Str
  foundWords : List FoundWordInfo
  score : ℤ
  timeLeft : ℤ
  isGameOver : Bool
  isInvalidWord : Bool
  lastWordLength : Nat
  streakCount : ℤ
  straightCount : ℤ
deriving DecidableEq

/-- Lookup in the `wordMap` built from the level file: `new Map` keyed by the
lowercased word, a later duplicate key overwriting an earlier one. -/
def wordMapLookup (levelWords : List WordResult) (k : Str) : Option WordResult :=
  (levelWords.reverse).find? (fun w => decide (toLowerStr w.word = k))

/-- The streak and straight bookkeeping of a valid submission, compared
against the previous `lastWordLength`: returns the bonus score, the new
streak count, the new straight count, and the bonus record when one
applies. -/
def bonusCalc (lastWordLength : Nat) (streakCount straightCount : ℤ)
    (newWordLength : Nat) : ℤ × ℤ × ℤ × Option Bonus :=
  if 0 < lastWordLength ∧ newWordLength = lastWordLength then
    let currentStreak := streakCount + 1
    if 2 ≤ currentStreak then
      ((currentStreak - 1) * 50, currentStreak, 1,
        some ⟨some BonusType.streak, (currentStreak - 1) * 50, currentStreak⟩)
    else (0, currentStreak, 1, none)
  else if 0 < lastWordLength ∧ newWordLength = lastWordLength + 1 then
    let currentStraight := straightCount + 1
    if 2 ≤ currentStraight then
      ((currentStraight - 1) * 100, 1, currentStraight,
        some ⟨some BonusType.straight, (currentStraight - 1) * 100, currentStraight⟩)
    else (0, 1, currentStraight, none)
  else (0, 1, 1, none)

/-- The submit handler: a no-op when the game is over; an already-found
word only raises the transient invalid flag; a word absent from the level
list raises the flag and zeroes both counters; a valid new word appends a
`FoundWordInfo`, adds its score plus bonus, and updates the counters.
The input buffer is cleared unconditionally. -/
def handleSubmit (levelWords : List WordResult) (s : SessionState) : SessionState :=
  if s.isGameOver then s
  else
    let lowerInput := toLowerStr s.currentInput
    if s.foundWords.any (fun fw => decide (fw.word = lowerInput)) then
      { s with isInvalidWord := true, currentInput := [] }
    else
      match wordMapLookup levelWords lowerInput with
      | some wordData =>
        let newWordLength := wordData.word.length
        let r := bonusCalc s.lastWordLength s.streakCount s.straightCount newWordLength
        let newFoundWord : FoundWordInfo :=
          ⟨lowerInput, wordData.combined_score, (r.2.2.2).getD ⟨none, 0, 0⟩⟩
        { s with
          streakCount := r.2.1
          straightCount := r.2.2.1
          lastWordLength := newWordLength
          score := s.score + (wordData.combined_score + r.1)
          foundWords := newFoundWord :: s.foundWords
          currentInput := [] }
      | none =>
        { s with
          isInvalidWord := true
          streakCount := 0
          straightCount := 0
          currentInput := [] }

/-- The keypress handler: the letter is appended only while its used count
in the buffer stays below its count in the seed word. -/
def handleKeyPress (seedWord : Str) (s : SessionState) (letter : Char) : SessionState :=
  let usedCount := (toLowerStr s.currentInput).count letter
  let availableCount := (toLowerStr seedWord).count letter
  if usedCount < availableCount then { s with currentInput := s.currentInput ++ [letter] }
  else s

/-- The delete handler: drop the last buffered character. -/
def handleDelete (s : SessionState) : SessionState :=
  { s with currentInput := s.currentInput.dropLast }

/-- One evaluation of the countdown effect: nothing once the game is over;
at zero the session transitions to the terminal state without ticking;
otherwise one elapsed second decrements the remaining time. -/
def timerTick (s : SessionState) : SessionState :=
  if s.isGameOver then s
  else if s.timeLeft ≤ 0 then { s with isGameOver := true }
  else { s with timeLeft := s.timeLeft - 1 }

/-- `GAME_CONFIG.TIME_LIMIT`. -/
def TIME_LIMIT : ℤ := 300

/-- The session state at a fresh level start. -/
def initialState : SessionState :=
  { currentInput := []
    foundWords := []
    score := 0
    timeLeft := TIME_LIMIT
    isGameOver := false
    isInvalidWord := false
    lastWordLength := 0
    streakCount := 0
    straightCount := 0 }

/-- A player or timer event of the running session. -/
inductive Action where
  | press : Char → Action
  | del : Action
  | submit : Action
  | tick : Action

/-- One serialized event step of the session. -/
def step (seedWord : Str) (levelWords : List WordResult) (s : SessionState) :
    Action → SessionState
  | Action.press c => handleKeyPress seedWord s c
  | Action.del => handleDelete s
  | Action.submit => handleSubmit levelWords s
  | Action.tick => timerTick s

/-- The session state reached from a fresh level start by a sequence of
events. -/
def runActions (seedWord : Str) (levelWords : List WordResult)
    (acts : List Action) : SessionState :=
  acts.foldl (step seedWord levelWords) initialState

/-- The sum over the found-word list of each entry score plus its bonus
amount. -/
def ledger (fws : List FoundWordInfo) : ℤ :=
  (fws.map (fun fw => fw.score + fw.bonus.amount)).sum

/-- Typing a word into the buffer and submitting it. -/
def submitWord (levelWords : List WordResult) (s : SessionState) (w : Str) :
    SessionState :=
  handleSubmit levelWords { s with currentInput := w }

/-- Submitting a list of words in order, from a fresh level start. -/
def submitSeq (levelWords : List WordResult) (ws : List Str) : SessionState :=
  ws.foldl (submitWord levelWords) initialState

/-- The bonus amounts of the found words in submission order (the found
list is most-recent-first). -/
def bonusAmounts (s : SessionState) : List ℤ :=
  (s.foundWords.map (fun fw => fw.bonus.amount)).reverse

/-- A five-word level list used to exercise the concrete streak and
straight scenarios. -/
def testLevelWords : List WordResult :=
  [⟨String.toList "abc", 1, 100⟩, ⟨String.toList "abcd", 1, 100⟩,
   ⟨String.toList "abce", 1, 100⟩, ⟨String.toList "abcf", 1, 100⟩,
   ⟨String.toList "abcde", 1, 100⟩]

/-- A concrete progress ledger with one recorded level used by the C8
witness. -/
def c8Progress : GameProgress :=
  { currentLevel := 3
    language := Language.en
    completedLevels := fun l => if l = 2 then some ⟨100, 5, 10, String.toList "t"⟩ else none
    totalScore := 100
    lastPlayed := String.toList "t" }

/-- A session state mid-streak (one four-letter word found, counters at
one, the next four-letter word in the buffer), used by the C5 witness. -/
def streakState : SessionState :=
  { initialState with
    currentInput := String.toList "abce"
    foundWords := [⟨String.toList "abcd", 100, ⟨none, 0, 0⟩⟩]
    score := 100
    lastWordLength := 4
    streakCount := 1
    straightCount := 1 }

/-- A session state holding a streak of three, with a buffer that matches
no level word, used by the C6 witness. -/
def missState : SessionState :=
  { initialState with
    currentInput := String.toList "zzz"
    lastWordLength := 4
    streakCount := 3
    straightCount := 1 }

/-- A session state whose buffer repeats the single found word, used by the
C7 witness. -/
def foundState : SessionState :=
  { initialState with
    currentInput := String.toList "abcd"
    foundWords := [⟨String.toList "abcd", 100, ⟨none, 0, 0⟩⟩]
    score := 100
    lastWordLength := 4
    streakCount := 1
    straightCount := 1 }

theorem lowerChar_upperChar (c : Char) : lowerChar (upperChar c) = lowerChar c := by
  rcases hfind : caseTable.find? (fun p => decide (p.1 = c)) with _ | q
  · have h1 : upperChar c = c := by unfold upperChar; rw [hfind]
    rw [h1]
  · have hq2 : upperChar c = q.2 := by unfold upperChar; rw [hfind]
    have hmem : q ∈ caseTable := List.mem_of_find?_eq_some hfind
    have hq1 : q.1 = c := by have := List.find?_some hfind; simpa using this
    have hlow : ∀ p ∈ caseTable, lowerChar p.2 = p.1 := by decide
    have hlowc : ∀ p ∈ caseTable, lowerChar p.1 = p.1 := by decide
    have h2 : lowerChar c = c := by rw [← hq1]; exact hlowc q hmem
    rw [hq2, hlow q hmem, hq1, h2]

theorem toLowerStr_capitalize (w : Str) : toLowerStr (capitalize w) = toLowerStr w := by
  cases w with
  | nil => rfl
  | cons c rest => simp [toLowerStr, capitalize, lowerChar_upperChar]

theorem jsRound_eq_round (q : ℚ) : jsRound q = round q := by
  have hd0 : ((q.den : ℚ)) ≠ 0 := by exact_mod_cast q.den_pos.ne'
  have hnum : (q.num : ℚ) = q * q.den := (div_eq_iff hd0).1 (Rat.num_div_den q)
  have hq : q + 1 / 2 = ((2 * q.num + (q.den : ℤ) : ℤ) : ℚ) / ((2 * q.den : ℕ) : ℚ) := by
    have hden2 : ((2 * q.den : ℕ) : ℚ) ≠ 0 := by
      have := q.den_pos
      positivity
    rw [eq_div_iff hden2]
    push_cast
    rw [hnum]
    ring
  rw [round_eq, hq, Rat.floor_intCast_div_natCast]
  unfold jsRound
  push_cast
  norm_num

theorem jsRound_le_jsRound {a b : ℚ} (h : a ≤ b) : jsRound a ≤ jsRound b := by
  rw [jsRound_eq_round, jsRound_eq_round, round_eq, round_eq]
  exact Int.floor_le_floor (by linarith)

theorem toLowerStr_displayWord (lang : Language) (w : Str) :
    toLowerStr (displayWord lang w) = toLowerStr w := by
  unfold displayWord
  split
  · exact toLowerStr_capitalize w
  · rfl

theorem foldl_min_le_init (xs : List Nat) (a : Nat) : xs.foldl Nat.min a ≤ a := by
  induction xs generalizing a with
  | nil => simp
  | cons y ys ih =>
    simp only [List.foldl_cons]
    exact le_trans (ih (Nat.min a y)) (Nat.min_le_left a y)

theorem foldl_min_le_mem {xs : List Nat} {x : Nat} (h : x ∈ xs) (a : Nat) :
    xs.foldl Nat.min a ≤ x := by
  induction xs generalizing a with
  | nil => cases h
  | cons y ys ih =>
    simp only [List.foldl_cons]
    rcases List.mem_cons.1 h with rfl | hmem
    · exact le_trans (foldl_min_le_init ys _) (Nat.min_le_right a x)
    · exact ih hmem _

theorem listMinD_le {xs : List Nat} {x : Nat} (h : x ∈ xs) : listMinD xs ≤ x := by
  cases xs with
  | nil => cases h
  | cons y ys =>
    rcases List.mem_cons.1 h with rfl | hmem
    · exact foldl_min_le_init ys x
    · exact foldl_min_le_mem hmem y

theorem init_le_foldl_max (xs : List Nat) (a : Nat) : a ≤ xs.foldl Nat.max a := by
  induction xs generalizing a with
  | nil => simp
  | cons y ys ih =>
    simp only [List.foldl_cons]
    exact le_trans (Nat.le_max_left a y) (ih (Nat.max a y))

theorem mem_le_foldl_max {xs : List Nat} {x : Nat} (h : x ∈ xs) (a : Nat) :
    x ≤ xs.foldl Nat.max a := by
  induction xs generalizing a with
  | nil => cases h
  | cons y ys ih =>
    simp only [List.foldl_cons]
    rcases List.mem_cons.1 h with rfl | hmem
    · exact le_trans (Nat.le_max_right a x) (init_le_foldl_max ys _)
    · exact ih hmem _

theorem le_listMaxD {xs : List Nat} {x : Nat} (h : x ∈ xs) : x ≤ listMaxD xs := by
  cases xs with
  | nil => cases h
  | cons y ys =>
    rcases List.mem_cons.1 h with rfl | hmem
    · exact init_le_foldl_max ys x
    · exact mem_le_foldl_max hmem y

theorem insertDesc_perm (r : WordResult) (l : List WordResult) :
    List.Perm (insertDesc r l) (r :: l) := by
  induction l with
  | nil => exact List.Perm.refl _
  | cons x xs ih =>
    unfold insertDesc
    split
    · exact List.Perm.refl _
    · exact (List.Perm.cons x ih).trans (List.Perm.swap r x xs)

theorem sortByScoreDesc_perm (l : List WordResult) : List.Perm (sortByScoreDesc l) l := by
  induction l with
  | nil => exact List.Perm.refl _
  | cons x xs ih =>
    unfold sortByScoreDesc
    simp only [List.foldr_cons]
    exact (insertDesc_perm x _).trans (List.Perm.cons x ih)

theorem mem_findAndScoreWords {seedWord : Str} {lang : Language} {dictionary : List Str}
    {r : WordResult} (h : r ∈ findAndScoreWords seedWord lang dictionary) :
    ∃ w ∈ survivors seedWord dictionary,
      r = scoreWord lang (batchMinLength lang (survivors seedWord dictionary))
        (batchMaxLength lang (survivors seedWord dictionary))
        (batchMinUnc lang (survivors seedWord dictionary))
        (batchMaxUnc lang (survivors seedWord dictionary))
        ⟨w, calculateUncommonness w lang, w.length⟩ := by
  unfold findAndScoreWords at h
  split at h
  · cases h
  · split at h
    · cases h
    · have h2 := (sortByScoreDesc_perm _).mem_iff.1 h
      obtain ⟨item, hitem, hr⟩ := List.mem_map.1 h2
      obtain ⟨w, hw, hwitem⟩ := List.mem_map.1 hitem
      exact ⟨w, hw, by rw [← hr, ← hwitem]⟩

theorem count_le_of_canBeFormed {w seedWord : Str} (h : canBeFormed w seedWord = true)
    (c : Char) : (toLowerStr w).count c ≤ (toLowerStr seedWord).count c := by
  by_cases hc : c ∈ toLowerStr w
  · have := (List.all_eq_true.1 h) c hc
    exact of_decide_eq_true this
  · rw [List.count_eq_zero_of_not_mem hc]
    exact Nat.zero_le _

theorem keepWord_facts {seedWord w : Str} (h : keepWord seedWord w = true) :
    3 ≤ w.length ∧ w.length ≤ seedWord.length ∧ w ≠ toLowerStr seedWord ∧
      canBeFormed w seedWord = true := by
  unfold keepWord at h
  simp only [Bool.and_eq_true, Bool.not_eq_true', Bool.or_eq_false_iff,
    decide_eq_false_iff_not, Nat.not_lt] at h
  exact ⟨h.1.1.1, h.1.1.2, h.1.2, h.2⟩

theorem mem_survivors {seedWord w : Str} {dictionary : List Str}
    (h : w ∈ survivors seedWord dictionary) :
    w ∈ dictionary ∧ keepWord seedWord w = true :=
  List.mem_filter.1 h

theorem scoreWord_word (lang : Language) (a b c d : Nat) (item : ScoredWord) :
    (scoreWord lang a b c d item).word = displayWord lang item.word := rfl

/-- C1: every WordResult returned by `findAndScoreWords` satisfies the
sub-multiset invariant: for every character, its occurrence count in the
lowercased output word is at most its count in the lowercased seed word,
for every seed word, language and dictionary. -/
theorem C1_generator_sub_multiset (seedWord : Str) (lang : Language)
    (dictionary : List Str) (r : WordResult)
    (hr : r ∈ findAndScoreWords seedWord lang dictionary) (c : Char) :
    (toLowerStr r.word).count c ≤ (toLowerStr seedWord).count c := by
  obtain ⟨w, hw, rfl⟩ := mem_findAndScoreWords hr
  obtain ⟨hdict, hkeep⟩ := mem_survivors hw
  obtain ⟨h3, hlen, hneq, hform⟩ := keepWord_facts hkeep
  have hcount := count_le_of_canBeFormed hform c
  rw [scoreWord_word]
  rw [toLowerStr_displayWord]
  exact hcount

/-- Witness for C1 at the concrete input: seed `cat`, English, dictionary
containing only `act`; the generated entry is `Act` with score 1000. -/
theorem C1_generator_sub_multiset_witness :
    (toLowerStr (⟨String.toList "Act", 5, 1000⟩ : WordResult).word).count 'a' ≤
      (toLowerStr (String.toList "cat")).count 'a' :=
  C1_generator_sub_multiset (String.toList "cat") Language.en [String.toList "act"]
    ⟨String.toList "Act", 5, 1000⟩ (by decide) 'a'

/-- C2 counterexample: the self-match filter compares the raw dictionary word
with the lowercased seed, so a dictionary entry differing from the seed only
in case survives: with seed `abc` (German) and dictionary `[Abc]`, the output
contains `Abc`, which equals the seed case-insensitively. -/
theorem C2_no_self_match_counterexample :
    (⟨String.toList "Abc", 5, 1000⟩ : WordResult) ∈
        findAndScoreWords (String.toList "abc") Language.de [String.toList "Abc"] ∧
      toLowerStr (String.toList "Abc") = toLowerStr (String.toList "abc") := by
  constructor
  · decide
  · decide

/-- C2 amended: if every dictionary word is fully lowercase, the list
returned by `findAndScoreWords` never contains an entry equal
case-insensitively to the seed word. -/
theorem C2_no_self_match_amended (seedWord : Str) (lang : Language)
    (dictionary : List Str) (hlower : ∀ w ∈ dictionary, toLowerStr w = w)
    (r : WordResult) (hr : r ∈ findAndScoreWords seedWord lang dictionary) :
    toLowerStr r.word ≠ toLowerStr seedWord := by
  obtain ⟨w, hw, rfl⟩ := mem_findAndScoreWords hr
  obtain ⟨hdict, hkeep⟩ := mem_survivors hw
  obtain ⟨h3, hlen, hneq, hform⟩ := keepWord_facts hkeep
  rw [scoreWord_word, toLowerStr_displayWord, hlower w hdict]
  exact hneq

/-- Witness for the amended C2: seed `abc`, German, lowercase dictionary
`[abc, bca]`; the single output entry `bca` is not a self-match. -/
theorem C2_no_self_match_amended_witness :
    toLowerStr ((⟨String.toList "bca", 5, 1000⟩ : WordResult).word) ≠
      toLowerStr (String.toList "abc") :=
  C2_no_self_match_amended (String.toList "abc") Language.de
    [String.toList "abc", String.toList "bca"] (by decide)
    ⟨String.toList "bca", 5, 1000⟩ (by decide)

theorem jsRound_ten : jsRound (10 : ℚ) = 10 := by decide

theorem jsRound_thousand : jsRound (1000 : ℚ) = 1000 := by decide

theorem jsRound_one : jsRound (1 : ℚ) = 1 := by decide

theorem jsRound_five : jsRound (5 : ℚ) = 5 := by decide

theorem norm_bounds (lo x hi : Nat) (h1 : lo ≤ x) (h2 : x ≤ hi) :
    0 ≤ (if 0 < ((hi : ℚ) - (lo : ℚ)) then ((x : ℚ) - (lo : ℚ)) / ((hi : ℚ) - (lo : ℚ)) else 1) ∧
      (if 0 < ((hi : ℚ) - (lo : ℚ)) then ((x : ℚ) - (lo : ℚ)) / ((hi : ℚ) - (lo : ℚ)) else 1) ≤ 1 := by
  have hx1 : (lo : ℚ) ≤ (x : ℚ) := by exact_mod_cast h1
  have hx2 : (x : ℚ) ≤ (hi : ℚ) := by exact_mod_cast h2
  split
  · rename_i hrange
    constructor
    · apply div_nonneg
      · linarith
      · linarith
    · rw [div_le_one hrange]
      linarith
  · norm_num

theorem scoreWord_bounds (lang : Language) (minL maxL minU maxU : Nat)
    (item : ScoredWord) (hL1 : minL ≤ item.length) (hL2 : item.length ≤ maxL)
    (hU1 : minU ≤ item.uncommonness) (hU2 : item.uncommonness ≤ maxU) :
    10 ≤ (scoreWord lang minL maxL minU maxU item).combined_score ∧
      (scoreWord lang minL maxL minU maxU item).combined_score ≤ 1000 ∧
      1 ≤ (scoreWord lang minL maxL minU maxU item).estimated_uncommonness ∧
      (scoreWord lang minL maxL minU maxU item).estimated_uncommonness ≤ 5 := by
  obtain ⟨hL0, hL1'⟩ := norm_bounds minL item.length maxL hL1 hL2
  obtain ⟨hU0, hU1'⟩ := norm_bounds minU item.uncommonness maxU hU1 hU2
  set nL : ℚ :=
    if 0 < ((maxL : ℚ) - (minL : ℚ)) then
      ((item.length : ℚ) - (minL : ℚ)) / ((maxL : ℚ) - (minL : ℚ)) else 1 with hnL
  set nU : ℚ :=
    if 0 < ((maxU : ℚ) - (minU : ℚ)) then
      ((item.uncommonness : ℚ) - (minU : ℚ)) / ((maxU : ℚ) - (minU : ℚ)) else 1 with hnU
  have hc : (scoreWord lang minL maxL minU maxU item).combined_score =
      jsRound (10 + ((nL + nU) / 2) * 990) := rfl
  have he : (scoreWord lang minL maxL minU maxU item).estimated_uncommonness =
      jsRound (1 + nU * 4) := rfl
  rw [hc, he]
  refine ⟨?_, ?_, ?_, ?_⟩
  · rw [← jsRound_ten]
    apply jsRound_le_jsRound
    nlinarith
  · rw [← jsRound_thousand]
    apply jsRound_le_jsRound
    nlinarith
  · rw [← jsRound_one]
    apply jsRound_le_jsRound
    nlinarith
  · rw [← jsRound_five]
    apply jsRound_le_jsRound
    nlinarith

/-- C3: every WordResult produced by `findAndScoreWords` has a combined
score between 10 and 1000 and an estimated uncommonness between 1 and 5,
for every seed word, language and dictionary (in particular for every
non-empty surviving candidate set). -/
theorem C3_score_bounds (seedWord : Str) (lang : Language) (dictionary : List Str)
    (r : WordResult) (hr : r ∈ findAndScoreWords seedWord lang dictionary) :
    10 ≤ r.combined_score ∧ r.combined_score ≤ 1000 ∧
      1 ≤ r.estimated_uncommonness ∧ r.estimated_uncommonness ≤ 5 := by
  obtain ⟨w, hw, rfl⟩ := mem_findAndScoreWords hr
  have hitem : (⟨w, calculateUncommonness w lang, w.length⟩ : ScoredWord) ∈
      batchItems lang (survivors seedWord dictionary) :=
    List.mem_map_of_mem _ hw
  have hlenmem : w.length ∈
      (batchItems lang (survivors seedWord dictionary)).map ScoredWord.length := by
    exact List.mem_map_of_mem ScoredWord.length hitem
  have huncmem : calculateUncommonness w lang ∈
      (batchItems lang (survivors seedWord dictionary)).map ScoredWord.uncommonness := by
    exact List.mem_map_of_mem ScoredWord.uncommonness hitem
  exact scoreWord_bounds lang _ _ _ _ _
    (listMinD_le hlenmem) (le_listMaxD hlenmem) (listMinD_le huncmem) (le_listMaxD huncmem)

/-- Witness for C3 at the concrete input: seed `cat`, English, dictionary
containing only `act`; the single output entry has score 1000 and
uncommonness bucket 5. -/
theorem C3_score_bounds_witness :
    10 ≤ (⟨String.toList "Act", 5, 1000⟩ : WordResult).combined_score ∧
      (⟨String.toList "Act", 5, 1000⟩ : WordResult).combined_score ≤ 1000 ∧
      1 ≤ (⟨String.toList "Act", 5, 1000⟩ : WordResult).estimated_uncommonness ∧
      (⟨String.toList "Act", 5, 1000⟩ : WordResult).estimated_uncommonness ≤ 5 :=
  C3_score_bounds (String.toList "cat") Language.en [String.toList "act"]
    ⟨String.toList "Act", 5, 1000⟩ (by decide)

/-- C4 counterexample: `findAndScoreWords` performs no deduplication, so a
dictionary containing the same word twice yields two identical output
entries: seed `abcd`, English, dictionary `[abc, abc]`. -/
theorem C4_distinct_words_counterexample :
    ¬ ((findAndScoreWords (String.toList "abcd") Language.en
        [String.toList "abc", String.toList "abc"]).map WordResult.word).Nodup := by
  decide

/-- C4 amended: if no two dictionary entries are equal case-insensitively
(their lowercased forms are pairwise distinct), the words in the output of
`findAndScoreWords` are pairwise distinct. A dictionary with duplicate
entries produces duplicate output entries: the generator does not
deduplicate. -/
theorem C4_distinct_words_amended (seedWord : Str) (lang : Language)
    (dictionary : List Str) (h : (dictionary.map toLowerStr).Nodup) :
    ((findAndScoreWords seedWord lang dictionary).map WordResult.word).Nodup := by
  unfold findAndScoreWords
  split
  · simp
  · split
    · simp
    · have hperm : List.Perm
          ((scoreBatch lang (survivors seedWord dictionary)).map WordResult.word)
          (((batchItems lang (survivors seedWord dictionary)).map
            (scoreWord lang (batchMinLength lang (survivors seedWord dictionary))
              (batchMaxLength lang (survivors seedWord dictionary))
              (batchMinUnc lang (survivors seedWord dictionary))
              (batchMaxUnc lang (survivors seedWord dictionary)))).map WordResult.word) :=
        (sortByScoreDesc_perm _).map WordResult.word
      rw [hperm.nodup_iff]
      have hmap : (((batchItems lang (survivors seedWord dictionary)).map
            (scoreWord lang (batchMinLength lang (survivors seedWord dictionary))
              (batchMaxLength lang (survivors seedWord dictionary))
              (batchMinUnc lang (survivors seedWord dictionary))
              (batchMaxUnc lang (survivors seedWord dictionary)))).map WordResult.word) =
          (survivors seedWord dictionary).map (displayWord lang) := by
        unfold batchItems
        simp only [List.map_map]
        rfl
      rw [hmap]
      have h1 : ((survivors seedWord dictionary).map toLowerStr).Nodup := by
        have hsub : List.Sublist (survivors seedWord dictionary) dictionary :=
          List.filter_sublist _
        exact (hsub.map toLowerStr).nodup h
      have h2 : (((survivors seedWord dictionary).map (displayWord lang)).map toLowerStr) =
          (survivors seedWord dictionary).map toLowerStr := by
        simp only [List.map_map]
        apply List.map_congr_left
        intro w hw
        exact toLowerStr_displayWord lang w
      apply List.Nodup.of_map toLowerStr
      rw [h2]
      exact h1

/-- Witness for the amended C4: seed `abcd`, English, dictionary
`[abc, bcd]` with pairwise distinct lowercased entries; the two output
words `Bcd` and `Abc` are distinct. -/
theorem C4_distinct_words_amended_witness :
    ((findAndScoreWords (String.toList "abcd") Language.en
        [String.toList "abc", String.toList "bcd"]).map WordResult.word).Nodup :=
  C4_distinct_words_amended (String.toList "abcd") Language.en
    [String.toList "abc", String.toList "bcd"] (by decide)

theorem numOr_some_zero (v : ℤ) : numOr (some v) 0 = v := by
  show (if v = 0 then 0 else v) = v
  split <;> omega

theorem map_some_eq {α β : Type} (f : α → β) (a : α) :
    (some a).map f = some (f a) := rfl

theorem updateLevelProgress_existing (existing : GameProgress) (now : Str)
    (level score wordsFound totalWords : ℤ) (lang : Language) (ld : LevelData)
    (hld : existing.completedLevels level = some ld) :
    updateLevelProgress (some existing) now level score wordsFound totalWords lang =
      { currentLevel := numOr (some existing.currentLevel) 1
        language := lang
        completedLevels := fun l =>
          if l = level then
            some { score := if ld.score < score then score else ld.score
                   wordsFound := if ld.score < score then wordsFound else ld.wordsFound
                   totalWords := if ld.score < score then totalWords else ld.totalWords
                   completedAt := if ld.score < score then now
                     else strOr (some ld.completedAt) now }
          else existing.completedLevels l
        totalScore := existing.totalScore + (if ld.score < score then score - ld.score else 0)
        lastPlayed := now } := by
  unfold updateLevelProgress
  simp only [hld, map_some_eq, numOr_some_zero, decide_eq_true_eq]

/-- C8: the stored per-level best score is monotone. When a record already
exists for the level and the new score is not greater, the stored score,
wordsFound, totalWords and the accumulated totalScore are unchanged; a
strictly greater score replaces the entry and moves totalScore by exactly
the difference. -/
theorem C8_best_score_monotone (existing : GameProgress) (now : Str)
    (level score wordsFound totalWords : ℤ) (lang : Language) (ld : LevelData)
    (hld : existing.completedLevels level = some ld) :
    (score ≤ ld.score →
      ((updateLevelProgress (some existing) now level score wordsFound totalWords
          lang).completedLevels level).map LevelData.score = some ld.score ∧
      ((updateLevelProgress (some existing) now level score wordsFound totalWords
          lang).completedLevels level).map LevelData.wordsFound = some ld.wordsFound ∧
      ((updateLevelProgress (some existing) now level score wordsFound totalWords
          lang).completedLevels level).map LevelData.totalWords = some ld.totalWords ∧
      (updateLevelProgress (some existing) now level score wordsFound totalWords
          lang).totalScore = existing.totalScore) ∧
    (ld.score < score →
      (updateLevelProgress (some existing) now level score wordsFound totalWords
          lang).completedLevels level = some ⟨score, wordsFound, totalWords, now⟩ ∧
      (updateLevelProgress (some existing) now level score wordsFound totalWords
          lang).totalScore = existing.totalScore + (score - ld.score)) := by
  have hupd := updateLevelProgress_existing existing now level score wordsFound
    totalWords lang ld hld
  constructor
  · intro h
    have hns : ¬ ld.score < score := not_lt.2 h
    rw [hupd]
    simp [hns]
  · intro h
    rw [hupd]
    simp [h]

/-- Witness for C8: re-reporting level 2 with the lower score 50 keeps the
stored 100 and the total, while reporting 150 replaces the entry and adds
the 50 difference. -/
theorem C8_best_score_monotone_witness :
    (((updateLevelProgress (some c8Progress) (String.toList "u") 2 50 7 10
        Language.en).completedLevels 2).map LevelData.score = some 100 ∧
      ((updateLevelProgress (some c8Progress) (String.toList "u") 2 50 7 10
        Language.en).completedLevels 2).map LevelData.wordsFound = some 5 ∧
      ((updateLevelProgress (some c8Progress) (String.toList "u") 2 50 7 10
        Language.en).completedLevels 2).map LevelData.totalWords = some 10 ∧
      (updateLevelProgress (some c8Progress) (String.toList "u") 2 50 7 10
        Language.en).totalScore = c8Progress.totalScore) ∧
    ((updateLevelProgress (some c8Progress) (String.toList "u") 2 150 7 10
        Language.en).completedLevels 2 = some ⟨150, 7, 10, String.toList "u"⟩ ∧
      (updateLevelProgress (some c8Progress) (String.toList "u") 2 150 7 10
        Language.en).totalScore = c8Progress.totalScore + (150 - 100)) :=
  ⟨(C8_best_score_monotone c8Progress (String.toList "u") 2 50 7 10 Language.en
      ⟨100, 5, 10, String.toList "t"⟩ (by decide)).1 (by decide),
    (C8_best_score_monotone c8Progress (String.toList "u") 2 150 7 10 Language.en
      ⟨100, 5, 10, String.toList "t"⟩ (by decide)).2 (by decide)⟩

theorem handleSubmit_found (levelWords : List WordResult) (s : SessionState)
    (hgo : s.isGameOver = false)
    (hf : s.foundWords.any (fun fw => decide (fw.word = toLowerStr s.currentInput)) = true) :
    handleSubmit levelWords s = { s with isInvalidWord := true, currentInput := [] } := by
  simp [handleSubmit, hgo, hf]

theorem handleSubmit_miss (levelWords : List WordResult) (s : SessionState)
    (hgo : s.isGameOver = false)
    (hnf : s.foundWords.any (fun fw => decide (fw.word = toLowerStr s.currentInput)) = false)
    (hlk : wordMapLookup levelWords (toLowerStr s.currentInput) = none) :
    handleSubmit levelWords s =
      { s with
        isInvalidWord := true
        streakCount := 0
        straightCount := 0
        currentInput := [] } := by
  simp [handleSubmit, hgo, hnf, hlk]

theorem handleSubmit_valid (levelWords : List WordResult) (s : SessionState)
    (wd : WordResult) (hgo : s.isGameOver = false)
    (hnf : s.foundWords.any (fun fw => decide (fw.word = toLowerStr s.currentInput)) = false)
    (hlk : wordMapLookup levelWords (toLowerStr s.currentInput) = some wd) :
    handleSubmit levelWords s =
      { s with
        streakCount := (bonusCalc s.lastWordLength s.streakCount s.straightCount
          wd.word.length).2.1
        straightCount := (bonusCalc s.lastWordLength s.streakCount s.straightCount
          wd.word.length).2.2.1
        lastWordLength := wd.word.length
        score := s.score + (wd.combined_score +
          (bonusCalc s.lastWordLength s.streakCount s.straightCount wd.word.length).1)
        foundWords := ⟨toLowerStr s.currentInput, wd.combined_score,
          ((bonusCalc s.lastWordLength s.streakCount s.straightCount
            wd.word.length).2.2.2).getD ⟨none, 0, 0⟩⟩ :: s.foundWords
        currentInput := [] } := by
  simp [handleSubmit, hgo, hnf, hlk]

/-- C5: on a valid not-yet-found submission compared against a positive
previous word length, an equal length increments the streak counter and
resets the straight counter to one, paying `(streakCount - 1) * 50` tagged
`streak` on top of the word score once the resulting count reaches two;
a length exactly one longer increments the straight counter and resets the
streak counter to one, paying `(straightCount - 1) * 100` tagged
`straight`. In particular three same-length submissions from no history pay
bonuses 0, 50, 100, and submissions of lengths 3, 4, 5 pay 0, 100, 200. -/
theorem C5_streak_straight_bonuses :
    (∀ (levelWords : List WordResult) (s : SessionState) (wd : WordResult),
      s.isGameOver = false →
      s.foundWords.any (fun fw => decide (fw.word = toLowerStr s.currentInput)) = false →
      wordMapLookup levelWords (toLowerStr s.currentInput) = some wd →
      0 < s.lastWordLength →
      (wd.word.length = s.lastWordLength →
        (handleSubmit levelWords s).streakCount = s.streakCount + 1 ∧
        (handleSubmit levelWords s).straightCount = 1 ∧
        (2 ≤ s.streakCount + 1 →
          (handleSubmit levelWords s).score =
            s.score + (wd.combined_score + (s.streakCount + 1 - 1) * 50) ∧
          (handleSubmit levelWords s).foundWords =
            ⟨toLowerStr s.currentInput, wd.combined_score,
              ⟨some BonusType.streak, (s.streakCount + 1 - 1) * 50,
                s.streakCount + 1⟩⟩ :: s.foundWords) ∧
        (¬ 2 ≤ s.streakCount + 1 →
          (handleSubmit levelWords s).score = s.score + (wd.combined_score + 0) ∧
          (handleSubmit levelWords s).foundWords =
            ⟨toLowerStr s.currentInput, wd.combined_score,
              ⟨none, 0, 0⟩⟩ :: s.foundWords)) ∧
      (wd.word.length = s.lastWordLength + 1 →
        (handleSubmit levelWords s).straightCount = s.straightCount + 1 ∧
        (handleSubmit levelWords s).streakCount = 1 ∧
        (2 ≤ s.straightCount + 1 →
          (handleSubmit levelWords s).score =
            s.score + (wd.combined_score + (s.straightCount + 1 - 1) * 100) ∧
          (handleSubmit levelWords s).foundWords =
            ⟨toLowerStr s.currentInput, wd.combined_score,
              ⟨some BonusType.straight, (s.straightCount + 1 - 1) * 100,
                s.straightCount + 1⟩⟩ :: s.foundWords) ∧
        (¬ 2 ≤ s.straightCount + 1 →
          (handleSubmit levelWords s).score = s.score + (wd.combined_score + 0) ∧
          (handleSubmit levelWords s).foundWords =
            ⟨toLowerStr s.currentInput, wd.combined_score,
              ⟨none, 0, 0⟩⟩ :: s.foundWords))) ∧
    bonusAmounts (submitSeq testLevelWords
      [String.toList "abcd", String.toList "abce", String.toList "abcf"]) = [0, 50, 100] ∧
    bonusAmounts (submitSeq testLevelWords
      [String.toList "abc", String.toList "abcd", String.toList "abcde"]) = [0, 100, 200] := by
  refine ⟨?_, by decide, by decide⟩
  intro levelWords s wd hgo hnf hlk hpos
  rw [handleSubmit_valid levelWords s wd hgo hnf hlk]
  constructor
  · intro hlen
    have hcond : 0 < s.lastWordLength ∧ wd.word.length = s.lastWordLength := ⟨hpos, hlen⟩
    by_cases hb : 2 ≤ s.streakCount + 1
    · simp only [bonusCalc, if_pos hcond, if_pos hb]
      exact ⟨by trivial, by trivial, fun h => ⟨by trivial, by trivial⟩, fun h => absurd hb h⟩
    · simp only [bonusCalc, if_pos hcond, if_neg hb]
      exact ⟨by trivial, by trivial, fun h => absurd h hb, fun h => ⟨by trivial, by trivial⟩⟩
  · intro hlen
    have hne : ¬ (0 < s.lastWordLength ∧ wd.word.length = s.lastWordLength) := by
      rintro ⟨h1, h2⟩
      omega
    have hcond : 0 < s.lastWordLength ∧ wd.word.length = s.lastWordLength + 1 := ⟨hpos, hlen⟩
    by_cases hb : 2 ≤ s.straightCount + 1
    · simp only [bonusCalc, if_neg hne, if_pos hcond, if_pos hb]
      exact ⟨by trivial, by trivial, fun h => ⟨by trivial, by trivial⟩, fun h => absurd hb h⟩
    · simp only [bonusCalc, if_neg hne, if_pos hcond, if_neg hb]
      exact ⟨by trivial, by trivial, fun h => absurd h hb, fun h => ⟨by trivial, by trivial⟩⟩

/-- Witness for C5: submitting the second four-letter word doubles the
streak counter and pays the 50-point streak bonus. -/
theorem C5_streak_straight_bonuses_witness :
    (handleSubmit testLevelWords streakState).streakCount = streakState.streakCount + 1 ∧
    (handleSubmit testLevelWords streakState).straightCount = 1 ∧
    (handleSubmit testLevelWords streakState).score =
      streakState.score + (100 + (streakState.streakCount + 1 - 1) * 50) :=
  have h := (C5_streak_straight_bonuses.1 testLevelWords streakState
    ⟨String.toList "abce", 1, 100⟩ (by decide) (by decide) (by decide) (by decide)).1
    (by decide)
  ⟨h.1, h.2.1, (h.2.2.1 (by decide)).1⟩

/-- C6: the two counter resets of submit are asymmetric. A buffer that is
not in the word list zeroes both counters while changing nothing except the
transient invalid flag and the cleared buffer; a valid not-yet-found
submission whose length neither equals nor exceeds by exactly one a
positive previous length (including any decrease and the first word of a
session) sets both counters to one, never to zero. -/
theorem C6_counter_reset_asymmetry :
    (∀ (levelWords : List WordResult) (s : SessionState),
      s.isGameOver = false →
      s.foundWords.any (fun fw => decide (fw.word = toLowerStr s.currentInput)) = false →
      wordMapLookup levelWords (toLowerStr s.currentInput) = none →
      handleSubmit levelWords s =
        { s with
          isInvalidWord := true
          streakCount := 0
          straightCount := 0
          currentInput := [] }) ∧
    (∀ (levelWords : List WordResult) (s : SessionState) (wd : WordResult),
      s.isGameOver = false →
      s.foundWords.any (fun fw => decide (fw.word = toLowerStr s.currentInput)) = false →
      wordMapLookup levelWords (toLowerStr s.currentInput) = some wd →
      (s.lastWordLength = 0 ∨
        (wd.word.length ≠ s.lastWordLength ∧ wd.word.length ≠ s.lastWordLength + 1)) →
      (handleSubmit levelWords s).streakCount = 1 ∧
      (handleSubmit levelWords s).straightCount = 1 ∧
      (handleSubmit levelWords s).score = s.score + (wd.combined_score + 0) ∧
      (handleSubmit levelWords s).foundWords =
        ⟨toLowerStr s.currentInput, wd.combined_score, ⟨none, 0, 0⟩⟩ :: s.foundWords) := by
  constructor
  · intro levelWords s hgo hnf hlk
    exact handleSubmit_miss levelWords s hgo hnf hlk
  · intro levelWords s wd hgo hnf hlk hrel
    rw [handleSubmit_valid levelWords s wd hgo hnf hlk]
    have hne1 : ¬ (0 < s.lastWordLength ∧ wd.word.length = s.lastWordLength) := by
      rcases hrel with h0 | ⟨ha, hb⟩
      · rintro ⟨h1, h2⟩
        omega
      · rintro ⟨h1, h2⟩
        exact ha h2
    have hne2 : ¬ (0 < s.lastWordLength ∧ wd.word.length = s.lastWordLength + 1) := by
      rcases hrel with h0 | ⟨ha, hb⟩
      · rintro ⟨h1, h2⟩
        omega
      · rintro ⟨h1, h2⟩
        exact hb h2
    simp only [bonusCalc, if_neg hne1, if_neg hne2]
    exact ⟨by trivial, by trivial, by trivial, by trivial⟩

/-- Witness for C6: a miss zeroes both counters while a first-word
submission sets both counters to one. -/
theorem C6_counter_reset_asymmetry_witness :
    handleSubmit testLevelWords missState =
      { missState with
        isInvalidWord := true
        streakCount := 0
        straightCount := 0
        currentInput := [] } ∧
    (handleSubmit testLevelWords
      { initialState with currentInput := String.toList "abc" }).streakCount = 1 ∧
    (handleSubmit testLevelWords
      { initialState with currentInput := String.toList "abc" }).straightCount = 1 :=
  have h2 := C6_counter_reset_asymmetry.2 testLevelWords
    { initialState with currentInput := String.toList "abc" }
    ⟨String.toList "abc", 1, 100⟩ (by decide) (by decide) (by decide) (Or.inl (by decide))
  ⟨C6_counter_reset_asymmetry.1 testLevelWords missState (by decide) (by decide) (by decide),
    h2.1, h2.2.1⟩

/-- C7: submitting an already-found word only raises the transient invalid
flag and clears the buffer; score, found list, last word length and both
counters are untouched, and re-submitting the same word any number of times
reproduces the same state. -/
theorem C7_already_found_frame :
    (∀ (levelWords : List WordResult) (s : SessionState),
      s.isGameOver = false →
      s.foundWords.any (fun fw => decide (fw.word = toLowerStr s.currentInput)) = true →
      handleSubmit levelWords s = { s with isInvalidWord := true, currentInput := [] }) ∧
    (∀ (levelWords : List WordResult) (s : SessionState) (w : Str),
      s.isGameOver = false →
      s.foundWords.any (fun fw => decide (fw.word = toLowerStr w)) = true →
      submitWord levelWords (submitWord levelWords s w) w = submitWord levelWords s w ∧
      (submitWord levelWords s w).score = s.score ∧
      (submitWord levelWords s w).foundWords = s.foundWords ∧
      (submitWord levelWords s w).lastWordLength = s.lastWordLength ∧
      (submitWord levelWords s w).streakCount = s.streakCount ∧
      (submitWord levelWords s w).straightCount = s.straightCount) := by
  have hbase : ∀ (levelWords : List WordResult) (s : SessionState),
      s.isGameOver = false →
      s.foundWords.any (fun fw => decide (fw.word = toLowerStr s.currentInput)) = true →
      handleSubmit levelWords s = { s with isInvalidWord := true, currentInput := [] } :=
    fun levelWords s hgo hf => handleSubmit_found levelWords s hgo hf
  refine ⟨hbase, ?_⟩
  intro levelWords s w hgo hf
  have h1 : submitWord levelWords s w =
      { s with isInvalidWord := true, currentInput := [] } := by
    unfold submitWord
    exact hbase levelWords { s with currentInput := w } hgo hf
  have h2 : submitWord levelWords (submitWord levelWords s w) w =
      submitWord levelWords s w := by
    rw [h1]
    unfold submitWord
    exact hbase levelWords _ hgo hf
  rw [h2, h1]
  exact ⟨rfl, rfl, rfl, rfl, rfl, rfl⟩

/-- Witness for C7: re-submitting the already-found word changes only the
invalid flag and the buffer, and doing it twice changes nothing more. -/
theorem C7_already_found_frame_witness :
    handleSubmit testLevelWords foundState =
      { foundState with isInvalidWord := true, currentInput := [] } ∧
    submitWord testLevelWords (submitWord testLevelWords foundState (String.toList "abcd"))
        (String.toList "abcd") =
      submitWord testLevelWords foundState (String.toList "abcd") ∧
    (submitWord testLevelWords foundState (String.toList "abcd")).score = foundState.score :=
  have h2 := C7_already_found_frame.2 testLevelWords foundState (String.toList "abcd")
    (by decide) (by decide)
  ⟨C7_already_found_frame.1 testLevelWords foundState (by decide) (by decide),
    h2.1, h2.2.1⟩

theorem handleKeyPress_timeLeft (seedWord : Str) (s : SessionState) (c : Char) :
    (handleKeyPress seedWord s c).timeLeft = s.timeLeft := by
  unfold handleKeyPress
  dsimp only
  split <;> rfl

theorem handleSubmit_timeLeft (levelWords : List WordResult) (s : SessionState) :
    (handleSubmit levelWords s).timeLeft = s.timeLeft := by
  unfold handleSubmit
  dsimp only
  repeat' split
  all_goals rfl

theorem step_timeLeft_nonneg (seedWord : Str) (levelWords : List WordResult)
    (s : SessionState) (a : Action) (h : 0 ≤ s.timeLeft) :
    0 ≤ (step seedWord levelWords s a).timeLeft := by
  cases a with
  | press c =>
    show 0 ≤ (handleKeyPress seedWord s c).timeLeft
    rw [handleKeyPress_timeLeft]
    exact h
  | del =>
    show 0 ≤ (handleDelete s).timeLeft
    exact h
  | submit =>
    show 0 ≤ (handleSubmit levelWords s).timeLeft
    rw [handleSubmit_timeLeft]
    exact h
  | tick =>
    show 0 ≤ (timerTick s).timeLeft
    unfold timerTick
    split
    · exact h
    · split
      · exact h
      · rename_i hgo hpos
        show 0 ≤ s.timeLeft - 1
        omega

theorem foldl_timeLeft_nonneg (seedWord : Str) (levelWords : List WordResult)
    (acts : List Action) (s : SessionState) (h : 0 ≤ s.timeLeft) :
    0 ≤ (acts.foldl (step seedWord levelWords) s).timeLeft := by
  induction acts generalizing s with
  | nil => exact h
  | cons a rest ih =>
    simp only [List.foldl_cons]
    exact ih _ (step_timeLeft_nonneg seedWord levelWords s a h)

/-- C9: while the session is active the remaining time never increases:
a tick at positive remaining time decreases it by exactly one and keeps the
session active, a tick at exactly zero moves to the terminal state without
changing the time, a tick after the terminal state changes nothing, and
along every event sequence from a fresh start the remaining time never
becomes negative. -/
theorem C9_timer_monotone :
    (∀ s : SessionState, s.isGameOver = false →
      (timerTick s).timeLeft ≤ s.timeLeft ∧
      (0 < s.timeLeft →
        (timerTick s).timeLeft = s.timeLeft - 1 ∧ (timerTick s).isGameOver = false) ∧
      (s.timeLeft = 0 → timerTick s = { s with isGameOver := true })) ∧
    (∀ s : SessionState, s.isGameOver = true → timerTick s = s) ∧
    (∀ (seedWord : Str) (levelWords : List WordResult) (acts : List Action),
      0 ≤ (runActions seedWord levelWords acts).timeLeft) := by
  refine ⟨?_, ?_, ?_⟩
  · intro s hgo
    by_cases ht : s.timeLeft ≤ 0
    · have ht1 : timerTick s = { s with isGameOver := true } := by
        unfold timerTick
        rw [hgo]
        simp only [Bool.false_eq_true, if_false, if_pos ht]
      rw [ht1]
      refine ⟨le_refl _, ?_, fun hz => rfl⟩
      intro hpos
      omega
    · have ht2 : timerTick s = { s with timeLeft := s.timeLeft - 1 } := by
        unfold timerTick
        rw [hgo]
        simp only [Bool.false_eq_true, if_false, if_neg ht]
      rw [ht2]
      refine ⟨?_, fun hpos => ⟨rfl, hgo⟩, ?_⟩
      · show s.timeLeft - 1 ≤ s.timeLeft
        omega
      · intro hz
        omega
  · intro s hgo
    unfold timerTick
    rw [hgo]
    rfl
  · intro seedWord levelWords acts
    exact foldl_timeLeft_nonneg seedWord levelWords acts initialState (by decide)

/-- Witness for C9: a tick at 300 seconds leaves 299 and an active session,
a tick on a finished session is the identity, and a concrete event sequence
keeps the clock non-negative. -/
theorem C9_timer_monotone_witness :
    ((timerTick initialState).timeLeft ≤ initialState.timeLeft ∧
      ((timerTick initialState).timeLeft = initialState.timeLeft - 1 ∧
        (timerTick initialState).isGameOver = false)) ∧
    timerTick { initialState with isGameOver := true } =
      { initialState with isGameOver := true } ∧
    0 ≤ (runActions (String.toList "abcd") testLevelWords
      [Action.tick, Action.press 'a', Action.submit, Action.tick]).timeLeft :=
  have h1 := (C9_timer_monotone.1 initialState (by decide))
  ⟨⟨h1.1, h1.2.1 (by decide)⟩,
    C9_timer_monotone.2.1 { initialState with isGameOver := true } (by decide),
    C9_timer_monotone.2.2 (String.toList "abcd") testLevelWords
      [Action.tick, Action.press 'a', Action.submit, Action.tick]⟩

theorem ledger_cons (fw : FoundWordInfo) (fws : List FoundWordInfo) :
    ledger (fw :: fws) = fw.score + fw.bonus.amount + ledger fws := by
  unfold ledger
  simp [List.sum_cons]

theorem bonusCalc_amount (L : Nat) (k j : ℤ) (n : Nat) :
    (((bonusCalc L k j n).2.2.2).getD ⟨none, 0, 0⟩).amount = (bonusCalc L k j n).1 := by
  unfold bonusCalc
  dsimp only
  repeat' split
  all_goals rfl

theorem step_ledger (seedWord : Str) (levelWords : List WordResult)
    (s : SessionState) (a : Action) (h : s.score = ledger s.foundWords) :
    (step seedWord levelWords s a).score = ledger (step seedWord levelWords s a).foundWords := by
  cases a with
  | press c =>
    show (handleKeyPress seedWord s c).score = ledger (handleKeyPress seedWord s c).foundWords
    unfold handleKeyPress
    dsimp only
    split <;> exact h
  | del =>
    show (handleDelete s).score = ledger (handleDelete s).foundWords
    exact h
  | tick =>
    show (timerTick s).score = ledger (timerTick s).foundWords
    unfold timerTick
    split
    · exact h
    · split <;> exact h
  | submit =>
    show (handleSubmit levelWords s).score = ledger (handleSubmit levelWords s).foundWords
    by_cases hgo : s.isGameOver = true
    · unfold handleSubmit
      rw [if_pos hgo]
      exact h
    · rw [Bool.not_eq_true] at hgo
      by_cases hf : s.foundWords.any
          (fun fw => decide (fw.word = toLowerStr s.currentInput)) = true
      · rw [handleSubmit_found levelWords s hgo hf]
        exact h
      · rw [Bool.not_eq_true] at hf
        cases hlk : wordMapLookup levelWords (toLowerStr s.currentInput) with
        | none =>
          rw [handleSubmit_miss levelWords s hgo hf hlk]
          exact h
        | some wd =>
          rw [handleSubmit_valid levelWords s wd hgo hf hlk]
          simp only [ledger_cons, bonusCalc_amount]
          rw [h]
          ring

theorem foldl_ledger (seedWord : Str) (levelWords : List WordResult)
    (acts : List Action) (s : SessionState) (h : s.score = ledger s.foundWords) :
    (acts.foldl (step seedWord levelWords) s).score =
      ledger (acts.foldl (step seedWord levelWords) s).foundWords := by
  induction acts generalizing s with
  | nil => exact h
  | cons a rest ih =>
    simp only [List.foldl_cons]
    exact ih _ (step_ledger seedWord levelWords s a h)

/-- C10: in every session state reachable from a fresh level start by
presses, deletes, submits and timer ticks, the cumulative score equals the
sum over the found list of each entry score plus its bonus amount, and a
valid not-yet-found submission appends exactly one entry carrying the word
combined score and that submission bonus. -/
theorem C10_score_ledger :
    (∀ (seedWord : Str) (levelWords : List WordResult) (acts : List Action),
      (runActions seedWord levelWords acts).score =
        ledger (runActions seedWord levelWords acts).foundWords) ∧
    (∀ (levelWords : List WordResult) (s : SessionState) (wd : WordResult),
      s.isGameOver = false →
      s.foundWords.any (fun fw => decide (fw.word = toLowerStr s.currentInput)) = false →
      wordMapLookup levelWords (toLowerStr s.currentInput) = some wd →
      ∃ b : Bonus,
        (handleSubmit levelWords s).foundWords =
          ⟨toLowerStr s.currentInput, wd.combined_score, b⟩ :: s.foundWords ∧
        (handleSubmit levelWords s).score = s.score + (wd.combined_score + b.amount)) := by
  constructor
  · intro seedWord levelWords acts
    exact foldl_ledger seedWord levelWords acts initialState (by decide)
  · intro levelWords s wd hgo hnf hlk
    refine ⟨((bonusCalc s.lastWordLength s.streakCount s.straightCount
      wd.word.length).2.2.2).getD ⟨none, 0, 0⟩, ?_, ?_⟩
    · rw [handleSubmit_valid levelWords s wd hgo hnf hlk]
    · rw [handleSubmit_valid levelWords s wd hgo hnf hlk]
      simp only [bonusCalc_amount]

/-- Witness for C10: a concrete session of one tick, four presses and a
submit satisfies the ledger equation, and a concrete valid submission
appends one entry paying its combined score plus bonus. -/
theorem C10_score_ledger_witness :
    ((runActions (String.toList "abcd") testLevelWords
        [Action.tick, Action.press 'a', Action.press 'b', Action.press 'c',
          Action.press 'd', Action.submit]).score =
      ledger (runActions (String.toList "abcd") testLevelWords
        [Action.tick, Action.press 'a', Action.press 'b', Action.press 'c',
          Action.press 'd', Action.submit]).foundWords) ∧
    (∃ b : Bonus,
      (handleSubmit testLevelWords streakState).foundWords =
        ⟨toLowerStr streakState.currentInput, 100, b⟩ :: streakState.foundWords ∧
      (handleSubmit testLevelWords streakState).score =
        streakState.score + (100 + b.amount)) :=
  ⟨C10_score_ledger.1 (String.toList "abcd") testLevelWords
      [Action.tick, Action.press 'a', Action.press 'b', Action.press 'c',
        Action.press 'd', Action.submit],
    C10_score_ledger.2 testLevelWords streakState ⟨String.toList "abce", 1, 100⟩
      (by decide) (by decide) (by decide)⟩

end AnagramHunt
